import Mathlib

/-!
Verification of the connection pool in `cluster/connpool.go` of the nano
repository (types `connArray` and `rpcClient`).

Modelling conventions:
* A gRPC connection (`*grpc.ClientConn`) is an opaque identifier, `Conn := Nat`;
  a slot of the slice `connArray.v` is `Option Conn` (`none` is Go's `nil`).
* The external transport collaborator is an oracle
  `dial : String → Nat → Except Nat Conn`: `dial addr i` is the outcome of the
  i-th `grpc.DialContext` call performed while constructing the set for `addr`
  (`Except.error e` is a failed dial with transport error `e`).
* `conn.Close()` of the collaborator may fail; its outcome is an oracle
  `closeRes : Conn → Option Nat` whose result the code discards (the `TODO`
  in the source).  Operations additionally return the list of connections
  they closed, and construction returns the number of dials it performed,
  so that resource claims ("no dial happens", "everything opened is closed")
  are stateable.
* `index` is a Go `uint32`: it is kept as a `Nat` reduced modulo `2^32`, and
  the conversion `uint32(len(a.v))` in `Get` is `a.v.length % 2^32`.
* The Go map `conns` is an association list with unique keys; insertion is
  cons, lookup is `List.lookup`.
-/

/-- An opaque open transport connection (`*grpc.ClientConn`). -/
abbrev Conn := Nat

/-- The modulus of Go's `uint32` arithmetic. -/
def uint32Mod : Nat := 2 ^ 32

/-- `type connArray struct \x7b index uint32; v []*grpc.ClientConn \x7d`. -/
structure ConnArray where
  index : Nat
  v : List (Option Conn)
deriving DecidableEq, Repr

/-- The loop body of `connArray.Close`: closes every non-nil slot (discarding
the close error, as the source does) and nils every closed slot.  Returns the
new slots and the connections that were closed, in slot order. -/
def closeSlots (closeRes : Conn → Option Nat) : List (Option Conn) → List (Option Conn) × List Conn
  | [] => ([], [])
  | none :: rest => let r := closeSlots closeRes rest; (none :: r.1, r.2)
  | some c :: rest =>
    let _err := closeRes c
    let r := closeSlots closeRes rest
    (none :: r.1, c :: r.2)

/-- `func (a *connArray) Close()`: returns the updated array and the list of
connections it closed. -/
def ConnArray.Close (closeRes : Conn → Option Nat) (a : ConnArray) : ConnArray × List Conn :=
  let r := closeSlots closeRes a.v
  ({ a with v := r.1 }, r.2)

/-- Result of running `connArray.init` (or the construction loop): final
slots, number of dials performed, connections closed during cleanup, and the
error, if any. -/
structure InitResult where
  slots : List (Option Conn)
  dials : Nat
  closedConns : List Conn
  err : Option Nat
deriving DecidableEq, Repr

/-- The loop of `connArray.init`, iterating over the index list
(`for i := range a.v`) with the current slots as loop state: dial; on error
close the whole array and return the error; otherwise store the connection
at slot `i` and continue. -/
def initIdx (dial : Nat → Except Nat Conn) (closeRes : Conn → Option Nat)
    (v : List (Option Conn)) : List Nat → InitResult
  | [] => ⟨v, 0, [], none⟩
  | i :: rest =>
    match dial i with
    | Except.error e =>
      let r := closeSlots closeRes v
      ⟨r.1, 1, r.2, some e⟩
    | Except.ok conn =>
      let r := initIdx dial closeRes (v.set i (some conn)) rest
      ⟨r.slots, r.dials + 1, r.closedConns, r.err⟩

/-- `func (a *connArray) init(addr string, ...)`. -/
def ConnArray.init (dial : String → Nat → Except Nat Conn) (closeRes : Conn → Option Nat)
    (addr : String) (a : ConnArray) : InitResult :=
  initIdx (dial addr) closeRes a.v (List.range a.v.length)

instance {ε α : Type} [DecidableEq ε] [DecidableEq α] : DecidableEq (Except ε α) := fun a b =>
  match a, b with
  | Except.error e, Except.error f =>
    if h : e = f then isTrue (by rw [h]) else isFalse (fun hh => by cases hh; exact h rfl)
  | Except.error _, Except.ok _ => isFalse (fun hh => by cases hh)
  | Except.ok _, Except.error _ => isFalse (fun hh => by cases hh)
  | Except.ok x, Except.ok y =>
    if h : x = y then isTrue (by rw [h]) else isFalse (fun hh => by cases hh; exact h rfl)

/-- Result of `newConnArray`: the constructed array or the error, plus the
dial count and the connections closed during cleanup. -/
structure NewResult where
  result : Except Nat ConnArray
  dials : Nat
  closedConns : List Conn
deriving DecidableEq, Repr

/-- `func newConnArray(maxSize uint, addr string) (*connArray, error)`:
allocates `maxSize` nil slots and runs `init`; on error no array is handed
to the caller. -/
def newConnArray (dial : String → Nat → Except Nat Conn) (closeRes : Conn → Option Nat)
    (maxSize : Nat) (addr : String) : NewResult :=
  let a : ConnArray := { index := 0, v := List.replicate maxSize none }
  let r := a.init dial closeRes addr
  match r.err with
  | some e => ⟨Except.error e, r.dials, r.closedConns⟩
  | none => ⟨Except.ok { a with v := r.slots }, r.dials, r.closedConns⟩

/-- `func (a *connArray) Get() *grpc.ClientConn`:
`next := atomic.AddUint32(&a.index, 1) % uint32(len(a.v)); return a.v[next]`.
`none` is the fault (division by zero) when `uint32(len(a.v))` is `0`;
otherwise returns the post-increment array and the selected slot. -/
def ConnArray.Get (a : ConnArray) : Option (ConnArray × Option Conn) :=
  let m := a.v.length % uint32Mod
  if m = 0 then none
  else
    let newIndex := (a.index + 1) % uint32Mod
    some ({ a with index := newIndex }, a.v.getD (newIndex % m) none)

/-- The array state after `n` consecutive successful `Get` calls (unchanged
on a faulting call). -/
def getN (a : ConnArray) : Nat → ConnArray
  | 0 => a
  | n + 1 =>
    match (getN a n).Get with
    | some r => r.1
    | none => getN a n

/-- Errors surfaced by the pool: `errors.New("rpc client is closed")`, or a
transport error propagated from a failed dial. -/
inductive PoolError
  | closedError
  | dialError (e : Nat)
deriving DecidableEq, Repr

/-- `type rpcClient struct \x7b sync.RWMutex; isClosed bool; conns map[string]*connArray \x7d`. -/
structure RpcClient where
  isClosed : Bool
  conns : List (String × ConnArray)
deriving DecidableEq, Repr

/-- `func newRPCClient() *rpcClient`. -/
def newRPCClient : RpcClient := { isClosed := false, conns := [] }

/-- Result of a pool operation: the new pool state, the number of dials
performed, the connections closed, and the returned value. -/
structure PoolResult where
  client : RpcClient
  dials : Nat
  closedConns : List Conn
  result : Except PoolError ConnArray
deriving DecidableEq, Repr

/-- The read-locked fast path of `getConnArray` (the `RLock` critical
section): `some r` means the call finishes with result `r`; `none` means the
address was absent and the caller proceeds to `createConnArray`. -/
def fastPath (c : RpcClient) (addr : String) : Option (Except PoolError ConnArray) :=
  if c.isClosed then some (Except.error PoolError.closedError)
  else
    match c.conns.lookup addr with
    | some array => some (Except.ok array)
    | none => none

/-- `func (c *rpcClient) createConnArray(addr string)`: under the exclusive
lock, re-checks the registry; if still absent, constructs a `connArray` of
size `10` and registers it on success; a construction error is propagated
and nothing is registered. -/
def createConnArray (dial : String → Nat → Except Nat Conn) (closeRes : Conn → Option Nat)
    (c : RpcClient) (addr : String) : PoolResult :=
  match c.conns.lookup addr with
  | some array => ⟨c, 0, [], Except.ok array⟩
  | none =>
    let r := newConnArray dial closeRes 10 addr
    match r.result with
    | Except.error e => ⟨c, r.dials, r.closedConns, Except.error (PoolError.dialError e)⟩
    | Except.ok array =>
      ⟨{ c with conns := (addr, array) :: c.conns }, r.dials, r.closedConns, Except.ok array⟩

/-- `func (c *rpcClient) getConnArray(addr string)`: the fast path, then
`createConnArray` when the address is absent. -/
def getConnArray (dial : String → Nat → Except Nat Conn) (closeRes : Conn → Option Nat)
    (c : RpcClient) (addr : String) : PoolResult :=
  match fastPath c addr with
  | some r => ⟨c, 0, [], r⟩
  | none => createConnArray dial closeRes c addr

/-- The loop of `closeConns`: closes every registered array in place,
collecting the closed connections. -/
def closeConnsList (closeRes : Conn → Option Nat) :
    List (String × ConnArray) → List (String × ConnArray) × List Conn
  | [] => ([], [])
  | (k, a) :: rest =>
    let r := a.Close closeRes
    let rs := closeConnsList closeRes rest
    ((k, r.1) :: rs.1, r.2 ++ rs.2)

/-- `func (c *rpcClient) closeConns()`: under the exclusive lock, if not yet
closed, sets `isClosed` and closes every registered array.  Returns the new
pool state and the connections closed. -/
def closeConns (closeRes : Conn → Option Nat) (c : RpcClient) : RpcClient × List Conn :=
  if c.isClosed then (c, [])
  else
    let r := closeConnsList closeRes c.conns
    ({ isClosed := true, conns := r.1 }, r.2)

/-- A complete pool operation, for sequential-trace claims. -/
inductive PoolOp
  | get (addr : String)
  | shutdown
deriving DecidableEq, Repr

/-- Runs one pool operation, keeping only the pool state. -/
def runOp (dial : String → Nat → Except Nat Conn) (closeRes : Conn → Option Nat)
    (c : RpcClient) : PoolOp → RpcClient
  | PoolOp.get addr => (getConnArray dial closeRes c addr).client
  | PoolOp.shutdown => (closeConns closeRes c).1

/-- Runs a sequence of pool operations. -/
def runOps (dial : String → Nat → Except Nat Conn) (closeRes : Conn → Option Nat)
    (c : RpcClient) (ops : List PoolOp) : RpcClient :=
  ops.foldl (runOp dial closeRes) c

/-! ### Helper lemmas about construction and close -/

/-- `closeSlots` nils every slot and returns exactly the non-nil connections,
in slot order, independently of the close-error oracle. -/
theorem closeSlots_spec (closeRes : Conn → Option Nat) :
    ∀ v : List (Option Conn), closeSlots closeRes v = (List.replicate v.length none, v.filterMap id) := by
  intro v
  induction v with
  | nil => rfl
  | cons hd tl ih => cases hd <;> simp [closeSlots, ih, List.replicate_succ]

theorem initIdx_ok (dial : Nat → Except Nat Conn) (closeRes : Conn → Option Nat) (f : Nat → Conn) :
    ∀ (m s : Nat) (A C : List (Option Conn)), A.length = s →
      (∀ j, s ≤ j → j < s + m → dial j = Except.ok (f j)) →
      initIdx dial closeRes (A ++ (List.replicate m none ++ C)) (List.range' s m) =
        ⟨A ++ ((List.range' s m).map (fun j => some (f j)) ++ C), m, [], none⟩ := by
  intro m
  induction m with
  | zero =>
    intro s A C _ _
    simp [initIdx]
  | succ m ih =>
    intro s A C hA h
    rw [List.range'_succ]
    have hds : dial s = Except.ok (f s) := h s (Nat.le_refl s) (by omega)
    have hset : (A ++ (List.replicate (m + 1) none ++ C)).set s (some (f s))
        = (A ++ [some (f s)]) ++ (List.replicate m none ++ C) := by
      rw [List.replicate_succ, ← hA]
      rw [List.set_append_right _ _ (Nat.le_refl A.length)]
      simp
    have hA' : (A ++ [some (f s)]).length = s + 1 := by simp [hA]
    have h' : ∀ j, s + 1 ≤ j → j < s + 1 + m → dial j = Except.ok (f j) := by
      intro j h1 h2; exact h j (by omega) (by omega)
    simp only [initIdx, hds, hset, ih (s + 1) (A ++ [some (f s)]) C hA' h']
    simp

/-- Unfolding one successful loop iteration of `init`. -/
theorem initIdx_cons_ok (dial : Nat → Except Nat Conn) (closeRes : Conn → Option Nat)
    (v : List (Option Conn)) (i : Nat) (js : List Nat) (conn : Conn)
    (h : dial i = Except.ok conn) :
    initIdx dial closeRes v (i :: js) =
      ⟨(initIdx dial closeRes (v.set i (some conn)) js).slots,
       (initIdx dial closeRes (v.set i (some conn)) js).dials + 1,
       (initIdx dial closeRes (v.set i (some conn)) js).closedConns,
       (initIdx dial closeRes (v.set i (some conn)) js).err⟩ := by
  simp [initIdx, h]

/-- Unfolding one failing loop iteration of `init`: the whole current array is
closed and the error is reported. -/
theorem initIdx_cons_err (dial : Nat → Except Nat Conn) (closeRes : Conn → Option Nat)
    (v : List (Option Conn)) (i : Nat) (js : List Nat) (e : Nat)
    (h : dial i = Except.error e) :
    initIdx dial closeRes v (i :: js) =
      ⟨List.replicate v.length none, 1, v.filterMap id, some e⟩ := by
  simp [initIdx, h, closeSlots_spec]

theorem initIdx_append (dial : Nat → Except Nat Conn) (closeRes : Conn → Option Nat) :
    ∀ (js1 js2 : List Nat) (v : List (Option Conn)),
      (initIdx dial closeRes v js1).err = none →
      initIdx dial closeRes v (js1 ++ js2) =
        ⟨(initIdx dial closeRes (initIdx dial closeRes v js1).slots js2).slots,
         (initIdx dial closeRes v js1).dials +
           (initIdx dial closeRes (initIdx dial closeRes v js1).slots js2).dials,
         (initIdx dial closeRes (initIdx dial closeRes v js1).slots js2).closedConns,
         (initIdx dial closeRes (initIdx dial closeRes v js1).slots js2).err⟩ := by
  intro js1
  induction js1 with
  | nil =>
    intro js2 v _
    simp [initIdx]
  | cons i js1 ih =>
    intro js2 v herr
    cases hd : dial i with
    | error e =>
      exfalso
      simp [initIdx, hd] at herr
    | ok conn =>
      have herr' : (initIdx dial closeRes (v.set i (some conn)) js1).err = none := by
        simpa [initIdx, hd] using herr
      rw [List.cons_append, initIdx_cons_ok dial closeRes v i (js1 ++ js2) conn hd,
        ih js2 (v.set i (some conn)) herr',
        initIdx_cons_ok dial closeRes v i js1 conn hd]
      simp only [InitResult.mk.injEq, and_true, true_and]
      omega

/-- Successful construction: if every dial succeeds, `newConnArray` returns an
array whose `n` slots hold the `n` dialed connections, having dialed `n` times
and closed nothing. -/
theorem newConnArray_ok (dial : String → Nat → Except Nat Conn) (closeRes : Conn → Option Nat)
    (addr : String) (f : Nat → Conn) (n : Nat)
    (h : ∀ j, j < n → dial addr j = Except.ok (f j)) :
    newConnArray dial closeRes n addr =
      ⟨Except.ok { index := 0, v := (List.range n).map (fun j => some (f j)) }, n, []⟩ := by
  have h0 := initIdx_ok (dial addr) closeRes f n 0 [] [] rfl
    (by intro j _ h2; exact h j (by omega))
  simp only [List.nil_append, List.append_nil, Nat.zero_add] at h0
  unfold newConnArray ConnArray.init
  simp [List.range_eq_range', h0]

/-- Failed construction, loop-level fact: if dials `0..i-1` succeed and dial
`i` fails, `init` on a fresh `n`-slot array stops after `i+1` dials, closes
exactly the `i` connections it had opened (in order), leaves every slot nil,
and reports the dial error. -/
theorem init_err (dial : String → Nat → Except Nat Conn) (closeRes : Conn → Option Nat)
    (addr : String) (f : Nat → Conn) (n i e : Nat) (hi : i < n)
    (hok : ∀ j, j < i → dial addr j = Except.ok (f j))
    (hbad : dial addr i = Except.error e) :
    ConnArray.init dial closeRes addr { index := 0, v := List.replicate n none } =
      ⟨List.replicate n none, i + 1, (List.range i).map f, some e⟩ := by
  obtain ⟨m, hm⟩ : ∃ m, n = i + (m + 1) := ⟨n - i - 1, by omega⟩
  subst hm
  have hsplit : List.range (i + (m + 1)) = List.range' 0 i ++ List.range' i (m + 1) := by
    have h2 := List.range'_append_1 0 i (m + 1)
    rw [Nat.zero_add] at h2
    rw [show m + 1 + i = i + (m + 1) by omega] at h2
    rw [List.range_eq_range']
    exact h2.symm
  have hrep : (List.replicate (i + (m + 1)) none : List (Option Conn))
      = List.replicate i none ++ List.replicate (m + 1) none := List.replicate_add i (m + 1) none
  have h1 := initIdx_ok (dial addr) closeRes f i 0 [] (List.replicate (m + 1) none) rfl
    (by intro j _ h2; exact hok j (by omega))
  simp only [List.nil_append, Nat.zero_add] at h1
  have hv1len : ((List.range' 0 i).map (fun j => some (f j)) ++ List.replicate (m + 1) none).length
      = i + (m + 1) := by
    simp
  have hfm : ((List.range' 0 i).map (fun j => some (f j)) ++ List.replicate (m + 1) none).filterMap id
      = (List.range i).map f := by
    rw [List.filterMap_append, List.filterMap_replicate_of_none rfl, List.append_nil]
    rw [List.filterMap_map]
    rw [show (id ∘ fun j => some (f j)) = some ∘ f from rfl]
    rw [List.filterMap_eq_map, List.range_eq_range']
  unfold ConnArray.init
  rw [show (({ index := 0, v := List.replicate (i + (m + 1)) none } : ConnArray)).v
      = List.replicate (i + (m + 1)) none from rfl]
  rw [List.length_replicate, hsplit, hrep]
  rw [initIdx_append (dial addr) closeRes _ _ _ (by rw [h1])]
  rw [h1, List.range'_succ]
  rw [initIdx_cons_err (dial addr) closeRes _ i _ e hbad]
  rw [hv1len, hfm]
  rw [← hrep]

/-! ### Round-robin selection -/

/-- `Get` on an array with `0 < length < 2^32`: increments the `uint32`
cursor and returns the slot at the new cursor modulo the length. -/
theorem get_spec (a : ConnArray) (h1 : 0 < a.v.length) (h2 : a.v.length < uint32Mod) :
    a.Get = some ({ a with index := (a.index + 1) % uint32Mod },
      a.v.getD (((a.index + 1) % uint32Mod) % a.v.length) none) := by
  unfold ConnArray.Get
  rw [Nat.mod_eq_of_lt h2]
  simp [Nat.pos_iff_ne_zero.mp h1]

/-- `Get` faults exactly on arrays whose `uint32`-truncated length is zero;
in particular it faults on the empty array. -/
theorem get_fault (a : ConnArray) (h : a.v.length % uint32Mod = 0) : a.Get = none := by
  unfold ConnArray.Get
  simp [h]

/-- After `n` `Get` calls the slots are unchanged and the `uint32` cursor has
advanced by `n` (modulo `2^32`). -/
theorem getN_spec (a : ConnArray) (h1 : 0 < a.v.length) (h2 : a.v.length < uint32Mod)
    (h3 : a.index < uint32Mod) :
    ∀ n, getN a n = { index := (a.index + n) % uint32Mod, v := a.v } := by
  intro n
  induction n with
  | zero =>
    show a = _
    rw [Nat.add_zero, Nat.mod_eq_of_lt h3]
  | succ n ih =>
    show (match (getN a n).Get with
      | some r => r.1
      | none => getN a n) = _
    rw [ih]
    rw [get_spec { index := (a.index + n) % uint32Mod, v := a.v } h1 h2]
    show ({ index := ((a.index + n) % uint32Mod + 1) % uint32Mod, v := a.v } : ConnArray) = _
    rw [Nat.mod_add_mod, Nat.add_assoc]

/-- The value returned by the `(i+1)`-th consecutive `Get` call. -/
theorem get_at (a : ConnArray) (h1 : 0 < a.v.length) (h2 : a.v.length < uint32Mod)
    (h3 : a.index < uint32Mod) (i : Nat) :
    (getN a i).Get = some (getN a (i + 1),
      a.v.getD (((a.index + i + 1) % uint32Mod) % a.v.length) none) := by
  rw [getN_spec a h1 h2 h3 i, getN_spec a h1 h2 h3 (i + 1)]
  rw [get_spec { index := (a.index + i) % uint32Mod, v := a.v } h1 h2]
  rw [show ((a.index + i) % uint32Mod + 1) % uint32Mod = (a.index + (i + 1)) % uint32Mod by
    rw [Nat.mod_add_mod, Nat.add_assoc]]
  rw [show a.index + i + 1 = a.index + (i + 1) from Nat.add_assoc a.index i 1]

/-- The values returned by `k` consecutive `Get` calls starting from state
`a` (the fault case is collapsed to `none`; under the hypotheses of the
theorems below no call faults). -/
def winOuts (a : ConnArray) (k : Nat) : List (Option Conn) :=
  (List.range k).map (fun i => ((getN a i).Get).elim none Prod.snd)

/-- As long as the cursor window does not cross a `uint32` wraparound, `k`
consecutive `Get` calls on a `k`-slot array visit the slots in rotated order:
the returned values are exactly the rotation of the slot list starting at
slot `(index+1) mod k`. -/
theorem winOuts_eq_rotate (a : ConnArray) (k : Nat) (hk : k = a.v.length) (h0 : 0 < k)
    (hbound : a.index + k < uint32Mod) :
    winOuts a k = a.v.rotate ((a.index + 1) % k) := by
  subst hk
  have h2 : a.v.length < uint32Mod := by omega
  have h3 : a.index < uint32Mod := by omega
  have hpos : 0 < a.v.length := h0
  apply List.ext_get
  · simp [winOuts]
  · intro n hn1 hn2
    have hnk : n < a.v.length := by simpa [winOuts] using hn1
    have hL : (winOuts a a.v.length).get ⟨n, hn1⟩
        = a.v.getD ((a.index + n + 1) % a.v.length) none := by
      simp only [winOuts, List.get_eq_getElem, List.getElem_map, List.getElem_range]
      rw [get_at a hpos h2 h3 n]
      simp only [Option.elim]
      rw [Nat.mod_eq_of_lt (show a.index + n + 1 < uint32Mod by omega)]
    rw [hL, List.get_rotate]
    have hidx : (n + (a.index + 1) % a.v.length) % a.v.length
        = (a.index + n + 1) % a.v.length := by
      rw [Nat.add_comm n ((a.index + 1) % a.v.length), Nat.mod_add_mod]
      congr 1
      omega
    have hlt : (a.index + n + 1) % a.v.length < a.v.length := Nat.mod_lt _ hpos
    rw [List.getD_eq_getElem?_getD, List.getElem?_eq_getElem hlt]
    simp [List.get_eq_getElem, hidx]

/-! ### Pool helper lemmas -/

theorem getConnArray_closed (dial : String → Nat → Except Nat Conn) (closeRes : Conn → Option Nat)
    (c : RpcClient) (addr : String) (h : c.isClosed = true) :
    getConnArray dial closeRes c addr = ⟨c, 0, [], Except.error PoolError.closedError⟩ := by
  simp [getConnArray, fastPath, h]

theorem closeConns_of_closed (closeRes : Conn → Option Nat) (c : RpcClient)
    (h : c.isClosed = true) : closeConns closeRes c = (c, []) := by
  simp [closeConns, h]

theorem closeConns_isClosed (closeRes : Conn → Option Nat) (c : RpcClient) :
    ((closeConns closeRes c).1).isClosed = true := by
  cases hc : c.isClosed <;> simp [closeConns, hc]

theorem runOp_closed (dial : String → Nat → Except Nat Conn) (closeRes : Conn → Option Nat)
    (c : RpcClient) (op : PoolOp) (h : c.isClosed = true) :
    runOp dial closeRes c op = c := by
  cases op with
  | get addr => simp [runOp, getConnArray_closed dial closeRes c addr h]
  | shutdown => simp [runOp, closeConns_of_closed closeRes c h]

theorem runOps_closed (dial : String → Nat → Except Nat Conn) (closeRes : Conn → Option Nat)
    (c : RpcClient) (h : c.isClosed = true) :
    ∀ ops : List PoolOp, runOps dial closeRes c ops = c := by
  intro ops
  induction ops with
  | nil => rfl
  | cons op ops ih =>
    show runOps dial closeRes (runOp dial closeRes c op) ops = c
    rw [runOp_closed dial closeRes c op h]
    exact ih

theorem createConnArray_found (dial : String → Nat → Except Nat Conn) (closeRes : Conn → Option Nat)
    (c : RpcClient) (addr : String) (a : ConnArray) (h : c.conns.lookup addr = some a) :
    createConnArray dial closeRes c addr = ⟨c, 0, [], Except.ok a⟩ := by
  simp [createConnArray, h]

theorem createConnArray_absent_ok (dial : String → Nat → Except Nat Conn) (closeRes : Conn → Option Nat)
    (c : RpcClient) (addr : String) (A : ConnArray)
    (h : c.conns.lookup addr = none)
    (hA : (newConnArray dial closeRes 10 addr).result = Except.ok A) :
    createConnArray dial closeRes c addr =
      ⟨{ c with conns := (addr, A) :: c.conns },
       (newConnArray dial closeRes 10 addr).dials,
       (newConnArray dial closeRes 10 addr).closedConns,
       Except.ok A⟩ := by
  simp [createConnArray, h, hA]

theorem createConnArray_absent_err (dial : String → Nat → Except Nat Conn) (closeRes : Conn → Option Nat)
    (c : RpcClient) (addr : String) (e : Nat)
    (h : c.conns.lookup addr = none)
    (he : (newConnArray dial closeRes 10 addr).result = Except.error e) :
    createConnArray dial closeRes c addr =
      ⟨c, (newConnArray dial closeRes 10 addr).dials,
       (newConnArray dial closeRes 10 addr).closedConns,
       Except.error (PoolError.dialError e)⟩ := by
  simp [createConnArray, h, he]

theorem getConnArray_open_found (dial : String → Nat → Except Nat Conn) (closeRes : Conn → Option Nat)
    (c : RpcClient) (addr : String) (a : ConnArray)
    (hc : c.isClosed = false) (h : c.conns.lookup addr = some a) :
    getConnArray dial closeRes c addr = ⟨c, 0, [], Except.ok a⟩ := by
  simp [getConnArray, fastPath, hc, h]

theorem getConnArray_open_absent (dial : String → Nat → Except Nat Conn) (closeRes : Conn → Option Nat)
    (c : RpcClient) (addr : String)
    (hc : c.isClosed = false) (h : c.conns.lookup addr = none) :
    getConnArray dial closeRes c addr = createConnArray dial closeRes c addr := by
  simp [getConnArray, fastPath, hc, h]

/-! ### Interleaving model for concurrent first access

Each of `N` concurrent callers of `getConnArray addr` executes two atomic
critical sections: the read-locked fast path, and (if the address was
absent) the exclusively-locked `createConnArray`.  A step of the system runs
one caller's next critical section; `totalDials` accumulates the dials
performed. -/

/-- The program counter of one concurrent `getConnArray addr` caller. -/
inductive CallerState
  | ready
  | creating
  | done (r : Except PoolError ConnArray)
deriving DecidableEq, Repr

/-- Global state of the interleaving model. -/
structure CSys where
  client : RpcClient
  totalDials : Nat
  callers : List CallerState
deriving DecidableEq, Repr

/-- Initial state: a fresh pool and `n` callers about to run the fast path. -/
def initSys (n : Nat) : CSys :=
  ⟨newRPCClient, 0, List.replicate n CallerState.ready⟩

/-- One atomic step of the interleaving: either a caller's fast path
(finishing, or falling through to creation), or a caller's
`createConnArray` critical section. -/
inductive CStep (dial : String → Nat → Except Nat Conn) (closeRes : Conn → Option Nat)
    (addr : String) : CSys → CSys → Prop
  | fastDone (s : CSys) (i : Nat) (r : Except PoolError ConnArray)
      (hi : s.callers[i]? = some CallerState.ready)
      (hr : fastPath s.client addr = some r) :
      CStep dial closeRes addr s ⟨s.client, s.totalDials, s.callers.set i (CallerState.done r)⟩
  | fastMiss (s : CSys) (i : Nat)
      (hi : s.callers[i]? = some CallerState.ready)
      (hr : fastPath s.client addr = none) :
      CStep dial closeRes addr s ⟨s.client, s.totalDials, s.callers.set i CallerState.creating⟩
  | create (s : CSys) (i : Nat)
      (hi : s.callers[i]? = some CallerState.creating) :
      CStep dial closeRes addr s
        ⟨(createConnArray dial closeRes s.client addr).client,
         s.totalDials + (createConnArray dial closeRes s.client addr).dials,
         s.callers.set i (CallerState.done (createConnArray dial closeRes s.client addr).result)⟩

/-- Invariant of the interleaving when construction for `addr` succeeds with
array `A` after `D` dials: the pool is open, the caller count is stable, and
either nothing has happened yet (no dial, empty registry, nobody finished) or
exactly one construction has happened (`D` dials total, `A` registered) and
every finished caller got `A`. -/
def InvOk (addr : String) (A : ConnArray) (D : Nat) (n : Nat) (s : CSys) : Prop :=
  s.client.isClosed = false ∧ s.callers.length = n ∧
  ((s.client.conns = [] ∧ s.totalDials = 0 ∧ ∀ r, CallerState.done r ∉ s.callers) ∨
   (s.client.conns = [(addr, A)] ∧ s.totalDials = D ∧
    ∀ r, CallerState.done r ∈ s.callers → r = Except.ok A))

/-- Invariant of the interleaving when construction for `addr` fails with
transport error `e`: the registry stays empty and every finished caller got
the propagated dial error. -/
def InvErr (e : Nat) (n : Nat) (s : CSys) : Prop :=
  s.client.isClosed = false ∧ s.callers.length = n ∧ s.client.conns = [] ∧
  ∀ r, CallerState.done r ∈ s.callers → r = Except.error (PoolError.dialError e)

theorem invOk_init (addr : String) (A : ConnArray) (D n : Nat) :
    InvOk addr A D n (initSys n) := by
  refine ⟨rfl, by simp [initSys], Or.inl ⟨rfl, rfl, ?_⟩⟩
  intro r hmem
  have := List.eq_of_mem_replicate hmem
  cases this

theorem invErr_init (e n : Nat) : InvErr e n (initSys n) := by
  refine ⟨rfl, by simp [initSys], rfl, ?_⟩
  intro r hmem
  have := List.eq_of_mem_replicate hmem
  cases this

theorem invOk_step (dial : String → Nat → Except Nat Conn) (closeRes : Conn → Option Nat)
    (addr : String) (A : ConnArray) (n : Nat)
    (hA : (newConnArray dial closeRes 10 addr).result = Except.ok A)
    (s s' : CSys) (hstep : CStep dial closeRes addr s s')
    (hinv : InvOk addr A (newConnArray dial closeRes 10 addr).dials n s) :
    InvOk addr A (newConnArray dial closeRes 10 addr).dials n s' := by
  obtain ⟨hclosed, hlen, hcase⟩ := hinv
  cases hstep with
  | fastDone i r hi hr =>
    rcases hcase with ⟨hconns, hdials, hnodone⟩ | ⟨hconns, hdials, hdone⟩
    · exfalso
      simp [fastPath, hclosed, hconns] at hr
    · have hfp : fastPath s.client addr = some (Except.ok A) := by
        simp [fastPath, hclosed, hconns]
      rw [hfp] at hr
      injection hr with hr'
      refine ⟨hclosed, by simp [hlen], Or.inr ⟨hconns, hdials, ?_⟩⟩
      intro r' hmem
      rcases List.mem_or_eq_of_mem_set hmem with hmo | heq
      · exact hdone r' hmo
      · cases heq
        exact hr'.symm
  | fastMiss i hi hr =>
    refine ⟨hclosed, by simp [hlen], ?_⟩
    rcases hcase with ⟨hconns, hdials, hnodone⟩ | ⟨hconns, hdials, hdone⟩
    · refine Or.inl ⟨hconns, hdials, ?_⟩
      intro r hmem
      rcases List.mem_or_eq_of_mem_set hmem with hmo | heq
      · exact hnodone r hmo
      · cases heq
    · refine Or.inr ⟨hconns, hdials, ?_⟩
      intro r hmem
      rcases List.mem_or_eq_of_mem_set hmem with hmo | heq
      · exact hdone r hmo
      · cases heq
  | create i hi =>
    rcases hcase with ⟨hconns, hdials, hnodone⟩ | ⟨hconns, hdials, hdone⟩
    · have hlk : s.client.conns.lookup addr = none := by rw [hconns]; rfl
      have hcr := createConnArray_absent_ok dial closeRes s.client addr A hlk hA
      rw [hcr]
      refine ⟨hclosed, by simp [hlen], Or.inr ⟨by rw [hconns], by rw [hdials, Nat.zero_add], ?_⟩⟩
      intro r hmem
      rcases List.mem_or_eq_of_mem_set hmem with hmo | heq
      · exact absurd hmo (hnodone r)
      · cases heq
        rfl
    · have hlk : s.client.conns.lookup addr = some A := by
        rw [hconns]
        simp
      have hcr := createConnArray_found dial closeRes s.client addr A hlk
      rw [hcr]
      refine ⟨hclosed, by simp [hlen], Or.inr ⟨hconns, by rw [Nat.add_zero]; exact hdials, ?_⟩⟩
      intro r hmem
      rcases List.mem_or_eq_of_mem_set hmem with hmo | heq
      · exact hdone r hmo
      · cases heq
        rfl

theorem invErr_step (dial : String → Nat → Except Nat Conn) (closeRes : Conn → Option Nat)
    (addr : String) (e : Nat) (n : Nat)
    (he : (newConnArray dial closeRes 10 addr).result = Except.error e)
    (s s' : CSys) (hstep : CStep dial closeRes addr s s')
    (hinv : InvErr e n s) : InvErr e n s' := by
  obtain ⟨hclosed, hlen, hconns, hdone⟩ := hinv
  cases hstep with
  | fastDone i r hi hr =>
    exfalso
    simp [fastPath, hclosed, hconns] at hr
  | fastMiss i hi hr =>
    refine ⟨hclosed, by simp [hlen], hconns, ?_⟩
    intro r hmem
    rcases List.mem_or_eq_of_mem_set hmem with hmo | heq
    · exact hdone r hmo
    · cases heq
  | create i hi =>
    have hlk : s.client.conns.lookup addr = none := by rw [hconns]; rfl
    have hcr := createConnArray_absent_err dial closeRes s.client addr e hlk he
    rw [hcr]
    refine ⟨hclosed, by simp [hlen], hconns, ?_⟩
    intro r hmem
    rcases List.mem_or_eq_of_mem_set hmem with hmo | heq
    · exact hdone r hmo
    · cases heq
      rfl

/-! ### Concrete fixtures for witnesses and counterexamples -/

/-- A dial oracle whose i-th dial yields connection `i + 1`. -/
def dialSeq : String → Nat → Except Nat Conn := fun _ i => Except.ok (i + 1)

/-- A dial oracle that fails at the third dial (slot index 2) with transport
error `99`. -/
def dialFail : String → Nat → Except Nat Conn := fun _ i =>
  if i < 2 then Except.ok (i + 1) else Except.error 99

/-- A close oracle whose closes all succeed. -/
def closeOk : Conn → Option Nat := fun _ => none

/-- The freshly constructed 3-slot set holding connections 1, 2, 3. -/
def setA : ConnArray := { index := 0, v := [some 1, some 2, some 3] }

/-- The 10-slot set the pool constructs for an address under `dialSeq`. -/
def arr10 : ConnArray :=
  { index := 0
    v := [some 1, some 2, some 3, some 4, some 5, some 6, some 7, some 8, some 9, some 10] }

/-- A dial oracle all of whose dials yield connection `1`. -/
def dialOne : String → Nat → Except Nat Conn := fun _ _ => Except.ok 1

/-- A successfully constructed set of size `2^32` (every slot holds
connection `1`), at the `uint32` truncation boundary of `Get`. -/
def bigSet : ConnArray := { index := 0, v := List.replicate uint32Mod (some 1) }

/-- The array component left by `Close`: cursor unchanged, all slots nil. -/
theorem close_fst (closeRes : Conn → Option Nat) (a : ConnArray) :
    (a.Close closeRes).1 = { index := a.index, v := List.replicate a.v.length none } := by
  simp [ConnArray.Close, closeSlots_spec]

/-! ### Claim theorems -/

/-- C8: `ConnArray.Close` nils every slot, returns (closes) exactly the
non-nil connections in slot order, its behaviour is independent of the
individual close errors (they are swallowed, and one failing close does not
prevent the rest), and it is idempotent: a second `Close` closes nothing and
leaves the all-nil state unchanged. -/
theorem connpool_C8 (closeRes closeRes' : Conn → Option Nat) (a : ConnArray) :
    ((a.Close closeRes).1.v = List.replicate a.v.length none) ∧
    ((a.Close closeRes).2 = a.v.filterMap id) ∧
    (a.Close closeRes = a.Close closeRes') ∧
    (((a.Close closeRes).1.Close closeRes).2 = []) ∧
    (((a.Close closeRes).1.Close closeRes).1 = (a.Close closeRes).1) := by
  refine ⟨?_, ?_, ?_, ?_, ?_⟩ <;>
    simp [ConnArray.Close, closeSlots_spec, List.filterMap_replicate_of_none]

/-- C9: `newConnArray 0` succeeds without dialing and returns a zero-slot
set; `Get` on any zero-slot set faults (modulo by zero), so `Get` is total
only when the set has at least one slot (and it does succeed on any set of
size between 1 and `2^32 - 1`). -/
theorem connpool_C9 (dial : String → Nat → Except Nat Conn) (closeRes : Conn → Option Nat)
    (addr : String) :
    newConnArray dial closeRes 0 addr = ⟨Except.ok { index := 0, v := [] }, 0, []⟩ ∧
    (∀ a : ConnArray, a.v.length = 0 → a.Get = none) ∧
    (∀ a : ConnArray, 0 < a.v.length → a.v.length < uint32Mod → (a.Get).isSome = true) := by
  refine ⟨rfl, ?_, ?_⟩
  · intro a h
    exact get_fault a (by rw [h, Nat.zero_mod])
  · intro a h1 h2
    rw [get_spec a h1 h2]
    rfl

theorem connpool_C9_witness :
    newConnArray dialSeq closeOk 0 "x" = ⟨Except.ok { index := 0, v := [] }, 0, []⟩ ∧
    ConnArray.Get { index := 7, v := [] } = none ∧
    (ConnArray.Get { index := 0, v := [some 1] }).isSome = true := by
  have h := connpool_C9 dialSeq closeOk "x"
  exact ⟨h.1, h.2.1 { index := 7, v := [] } (by decide),
    h.2.2 { index := 0, v := [some 1] } (by decide) (by decide)⟩

/-- C10 (amended): for a set of size between 1 and `2^32 - 1` on which
`Close` has been called, a subsequent `Get` still succeeds without fault and
returns a nil connection — the closed state is not signaled to the caller.
(The size bound is forced by the `uint32(len(a.v))` conversion in `Get`; see
the counterexample at size `2^32`.) -/
theorem connpool_C10 (closeRes : Conn → Option Nat) (a : ConnArray)
    (h1 : 0 < a.v.length) (h2 : a.v.length < uint32Mod) :
    ((a.Close closeRes).1).Get
      = some ({ index := (a.index + 1) % uint32Mod, v := List.replicate a.v.length none }, none) := by
  rw [close_fst]
  rw [get_spec _ (by simpa using h1) (by simpa using h2)]
  simp

theorem connpool_C10_witness :
    ((ConnArray.Close closeOk { index := 0, v := [some 5, some 6] }).1).Get
      = some ({ index := 1 % uint32Mod, v := [none, none] }, none) := by
  have h := connpool_C10 closeOk { index := 0, v := [some 5, some 6] } (by decide) (by decide)
  exact h.trans (by decide)

/-- C10 (counterexample to the claim as stated): a successfully constructed
set of size `2^32` (hence of size ≥ 1), once closed, makes `Get` fault
rather than succeed, because Go's `uint32(len(a.v))` conversion truncates
the length to `0` and the modulo faults. -/
theorem connpool_C10_counterexample :
    (newConnArray dialOne closeOk uint32Mod "a").result = Except.ok bigSet ∧
    0 < bigSet.v.length ∧
    ((bigSet.Close closeOk).1).Get = none := by
  have h' : newConnArray dialOne closeOk uint32Mod "a"
      = ⟨Except.ok { index := 0, v := (List.range uint32Mod).map (fun _ => some 1) }, uint32Mod, []⟩ :=
    newConnArray_ok dialOne closeOk "a" (fun _ => 1) uint32Mod (fun _ _ => rfl)
  rw [List.map_const', List.length_range] at h'
  have hv : bigSet.v = List.replicate uint32Mod (some 1) := rfl
  have hlen : bigSet.v.length = uint32Mod := by rw [hv, List.length_replicate]
  refine ⟨?_, ?_, ?_⟩
  · exact congrArg NewResult.result h'
  · rw [hlen]
    decide
  · have hc : (bigSet.Close closeOk).1 = { index := 0, v := List.replicate uint32Mod none } := by
      conv_lhs => rw [close_fst closeOk bigSet, hlen]
      rfl
    have h2 : ({ index := 0, v := List.replicate uint32Mod (none : Option Conn) } : ConnArray).v.length
        % uint32Mod = 0 := by
      rw [show ({ index := 0, v := List.replicate uint32Mod (none : Option Conn) } : ConnArray).v
          = List.replicate uint32Mod none from rfl]
      rw [List.length_replicate, Nat.mod_self]
    exact (congrArg ConnArray.Get hc).trans
      (get_fault { index := 0, v := List.replicate uint32Mod none } h2)

/-- C4: construction is all-or-nothing.  If every dial succeeds the returned
set holds all `n` dialed connections (no slot nil) after exactly `n` dials
with nothing closed; if dial `i < n` fails, no further dial happens (`i+1`
dials total), exactly the `i` connections already opened are closed, in
order, every slot is left nil, and the dial error is returned with no array
handed to the caller. -/
theorem connpool_C4 (dial : String → Nat → Except Nat Conn) (closeRes : Conn → Option Nat)
    (addr : String) (f : Nat → Conn) (n i e : Nat) :
    ((∀ j, j < n → dial addr j = Except.ok (f j)) →
      newConnArray dial closeRes n addr =
        ⟨Except.ok { index := 0, v := (List.range n).map (fun j => some (f j)) }, n, []⟩) ∧
    (i < n → (∀ j, j < i → dial addr j = Except.ok (f j)) → dial addr i = Except.error e →
      newConnArray dial closeRes n addr = ⟨Except.error e, i + 1, (List.range i).map f⟩ ∧
      (ConnArray.init dial closeRes addr { index := 0, v := List.replicate n none }).slots
        = List.replicate n none) := by
  constructor
  · exact newConnArray_ok dial closeRes addr f n
  · intro hi hok hbad
    have h := init_err dial closeRes addr f n i e hi hok hbad
    constructor
    · simp [newConnArray, h]
    · rw [h]

theorem connpool_C4_witness :
    newConnArray dialSeq closeOk 3 "a" = ⟨Except.ok setA, 3, []⟩ ∧
    newConnArray dialFail closeOk 10 "b" = ⟨Except.error 99, 3, [1, 2]⟩ := by
  constructor
  · have h := (connpool_C4 dialSeq closeOk "a" (fun j => j + 1) 3 0 0).1 (fun _ _ => rfl)
    exact h.trans (by decide)
  · have h := (connpool_C4 dialFail closeOk "b" (fun j => j + 1) 10 2 99).2 (by decide)
      (by intro j hj; simp [dialFail, hj]) (by simp [dialFail])
    exact h.1.trans (by decide)

/-- The pool after one successful `getConnArray` for address `"a"`. -/
def poolA : RpcClient := (getConnArray dialSeq closeOk newRPCClient "a").client

/-- `poolA` after `closeConns`: closed, with `"a"` still registered (slots
nilled). -/
def poolAClosed : RpcClient := (closeConns closeOk poolA).1

/-- C2 (amended): in every pool state in which the address is registered,
`createConnArray` returns the existing set with no dial and an unchanged
registry; `getConnArray` does the same provided the pool is not closed (on a
closed pool it fails with the pool-closed error even for a registered
address — see the counterexample). -/
theorem connpool_C2 (dial : String → Nat → Except Nat Conn) (closeRes : Conn → Option Nat)
    (c : RpcClient) (addr : String) (a : ConnArray) (h : c.conns.lookup addr = some a) :
    createConnArray dial closeRes c addr = ⟨c, 0, [], Except.ok a⟩ ∧
    (c.isClosed = false → getConnArray dial closeRes c addr = ⟨c, 0, [], Except.ok a⟩) := by
  exact ⟨createConnArray_found dial closeRes c addr a h,
    fun hc => getConnArray_open_found dial closeRes c addr a hc h⟩

theorem connpool_C2_witness :
    createConnArray dialSeq closeOk poolA "a" = ⟨poolA, 0, [], Except.ok arr10⟩ ∧
    getConnArray dialSeq closeOk poolA "a" = ⟨poolA, 0, [], Except.ok arr10⟩ := by
  have h := connpool_C2 dialSeq closeOk poolA "a" arr10 (by decide)
  exact ⟨h.1, h.2 (by decide)⟩

/-- C2 (counterexample to the claim as stated): a reachable pool state in
which `"a"` is registered but the pool is closed; `getConnArray` then fails
with the pool-closed error instead of returning the registered entry. -/
theorem connpool_C2_counterexample :
    poolAClosed.conns.lookup "a" = some { index := 0, v := List.replicate 10 none } ∧
    getConnArray dialSeq closeOk poolAClosed "a"
      = ⟨poolAClosed, 0, [], Except.error PoolError.closedError⟩ := by
  constructor
  · decide
  · decide

/-- C5: after `closeConns` returns, the pool is closed, and every subsequent
`getConnArray` — after any further sequence of pool operations, for any
address — fails with the pool-closed error, returns no array, performs no
dial and leaves the state unchanged. -/
theorem connpool_C5 (dial : String → Nat → Except Nat Conn) (closeRes : Conn → Option Nat)
    (c : RpcClient) (ops : List PoolOp) (addr : String) :
    ((closeConns closeRes c).1).isClosed = true ∧
    getConnArray dial closeRes (runOps dial closeRes (closeConns closeRes c).1 ops) addr
      = ⟨(closeConns closeRes c).1, 0, [], Except.error PoolError.closedError⟩ := by
  have h1 := closeConns_isClosed closeRes c
  refine ⟨h1, ?_⟩
  rw [runOps_closed dial closeRes _ h1 ops]
  exact getConnArray_closed dial closeRes _ addr h1

/-- C6: the closed flag is monotonic — on a closed pool every operation is a
no-op (so nothing ever resets the flag and no sequence of operations ever
adds a registry entry), and `closeConns` on a closed pool closes nothing. -/
theorem connpool_C6 (dial : String → Nat → Except Nat Conn) (closeRes : Conn → Option Nat)
    (c : RpcClient) (h : c.isClosed = true) :
    (∀ op, runOp dial closeRes c op = c) ∧
    closeConns closeRes c = (c, []) ∧
    (∀ ops, runOps dial closeRes c ops = c) ∧
    (∀ ops, (runOps dial closeRes c ops).isClosed = true ∧
      (runOps dial closeRes c ops).conns = c.conns) := by
  refine ⟨fun op => runOp_closed dial closeRes c op h,
    closeConns_of_closed closeRes c h,
    runOps_closed dial closeRes c h,
    fun ops => ?_⟩
  rw [runOps_closed dial closeRes c h ops]
  exact ⟨h, rfl⟩

theorem connpool_C6_witness :
    runOps dialSeq closeOk poolAClosed [PoolOp.get "x", PoolOp.shutdown, PoolOp.get "a"]
      = poolAClosed ∧
    closeConns closeOk poolAClosed = (poolAClosed, []) := by
  have h := connpool_C6 dialSeq closeOk poolAClosed (by decide)
  exact ⟨h.2.2.1 _, h.2.1⟩

/-- C7: when construction fails inside `createConnArray`, the dial error is
propagated (wrapped as a pool dial error), the registry and whole pool state
are unchanged, and a later `getConnArray` for the same address performs the
construction again from scratch. -/
theorem connpool_C7 (dial : String → Nat → Except Nat Conn) (closeRes : Conn → Option Nat)
    (c : RpcClient) (addr : String) (e : Nat)
    (hlk : c.conns.lookup addr = none)
    (he : (newConnArray dial closeRes 10 addr).result = Except.error e) :
    createConnArray dial closeRes c addr
      = ⟨c, (newConnArray dial closeRes 10 addr).dials,
         (newConnArray dial closeRes 10 addr).closedConns,
         Except.error (PoolError.dialError e)⟩ ∧
    (c.isClosed = false →
      getConnArray dial closeRes c addr = createConnArray dial closeRes c addr ∧
      getConnArray dial closeRes ((createConnArray dial closeRes c addr).client) addr
        = createConnArray dial closeRes c addr) := by
  have h1 := createConnArray_absent_err dial closeRes c addr e hlk he
  refine ⟨h1, fun hc => ⟨getConnArray_open_absent dial closeRes c addr hc hlk, ?_⟩⟩
  have hcl : (createConnArray dial closeRes c addr).client = c := by rw [h1]
  rw [hcl]
  exact getConnArray_open_absent dial closeRes c addr hc hlk

theorem connpool_C7_witness :
    createConnArray dialFail closeOk newRPCClient "b"
      = ⟨newRPCClient, 3, [1, 2], Except.error (PoolError.dialError 99)⟩ ∧
    getConnArray dialFail closeOk ((createConnArray dialFail closeOk newRPCClient "b").client) "b"
      = createConnArray dialFail closeOk newRPCClient "b" := by
  have h := connpool_C7 dialFail closeOk newRPCClient "b" 99 rfl (by decide)
  exact ⟨h.1.trans (by decide), (h.2 rfl).2⟩

/-- C3 (amended): on a set of size `1 ≤ k < 2^32` with cursor `c < 2^32`,
the i-th subsequent `Get` returns the connection at slot
`((c + i) mod 2^32) mod k` — pre-increment semantics with `uint32`
wraparound of the cursor.  When the window does not cross the wraparound
(`c + k < 2^32`), `k` consecutive single-threaded calls return each of the
`k` connections exactly once, in rotated slot order starting from slot
`(c+1) mod k`; and on the freshly constructed 3-set, four calls return the
connections of slots 1, 2, 0, 1. -/
theorem connpool_C3 :
    (∀ (a : ConnArray) (i : Nat), 0 < a.v.length → a.v.length < uint32Mod →
      a.index < uint32Mod →
      (getN a i).Get = some (getN a (i + 1),
        a.v.getD (((a.index + i + 1) % uint32Mod) % a.v.length) none)) ∧
    (∀ a : ConnArray, 0 < a.v.length → a.index + a.v.length < uint32Mod →
      List.Perm (winOuts a a.v.length) a.v) ∧
    winOuts setA 4 = [some 2, some 3, some 1, some 2] := by
  refine ⟨?_, ?_, ?_⟩
  · intro a i h1 h2 h3
    exact get_at a h1 h2 h3 i
  · intro a h1 hb
    rw [winOuts_eq_rotate a a.v.length rfl h1 hb]
    exact List.rotate_perm _ _
  · decide

theorem connpool_C3_witness :
    ((getN setA 0).Get = some (getN setA 1,
      setA.v.getD (((setA.index + 0 + 1) % uint32Mod) % setA.v.length) none)) ∧
    List.Perm (winOuts setA setA.v.length) setA.v := by
  exact ⟨connpool_C3.1 setA 0 (by decide) (by decide) (by decide),
    connpool_C3.2.1 setA (by decide) (by decide)⟩

/-- C3 (counterexample to the claim as stated): on the successfully
constructed 3-set, after `2^32 - 1` calls the cursor (a `uint32`) is
`2^32 - 1`; the next call returns the slot-0 connection (`1`), while the
claimed formula `(c + 1) mod 3` picks slot 1, whose connection is `2` — a
different connection.  The `(c+i) mod k` formula ignores the `uint32`
wraparound of the cursor. -/
theorem connpool_C3_counterexample :
    (newConnArray dialSeq closeOk 3 "a").result = Except.ok setA ∧
    (getN setA (uint32Mod - 1)).index = uint32Mod - 1 ∧
    ((getN setA (uint32Mod - 1)).Get).elim none Prod.snd = some 1 ∧
    (uint32Mod - 1 + 1) % 3 = 1 ∧
    setA.v.getD 1 none = some 2 ∧
    (some 1 : Option Conn) ≠ some 2 := by
  have hspec := getN_spec setA (by decide) (by decide) (by decide) (uint32Mod - 1)
  refine ⟨by decide, ?_, ?_, by decide, by decide, by decide⟩
  · rw [hspec]
    decide
  · rw [hspec]
    decide

/-- C1: for any number of callers racing `getConnArray addr` on an empty
pool, along every interleaving of their lock-protected critical sections: if
construction for `addr` succeeds with array `A` after `D` dials, then at
most one dial sequence ever occurs (`totalDials` is `0` or `D`), every
finished caller got the same array `A`, and once all callers have finished
(with at least one caller) exactly one dial sequence has occurred, `A` is
the sole registry entry and every caller returned `A`; if construction
fails, nothing is ever registered and every finished caller failed with the
same propagated dial error. -/
theorem connpool_C1 (dial : String → Nat → Except Nat Conn) (closeRes : Conn → Option Nat)
    (addr : String) (n : Nat) (s : CSys)
    (hreach : Relation.ReflTransGen (CStep dial closeRes addr) (initSys n) s) :
    (∀ A, (newConnArray dial closeRes 10 addr).result = Except.ok A →
      (s.totalDials = 0 ∨ s.totalDials = (newConnArray dial closeRes 10 addr).dials) ∧
      (∀ r, CallerState.done r ∈ s.callers → r = Except.ok A) ∧
      ((∀ st ∈ s.callers, ∃ r, st = CallerState.done r) → 0 < n →
        s.totalDials = (newConnArray dial closeRes 10 addr).dials ∧
        s.client.conns = [(addr, A)] ∧
        ∀ st ∈ s.callers, st = CallerState.done (Except.ok A))) ∧
    (∀ e, (newConnArray dial closeRes 10 addr).result = Except.error e →
      s.client.conns = [] ∧
      ∀ r, CallerState.done r ∈ s.callers → r = Except.error (PoolError.dialError e)) := by
  constructor
  · intro A hA
    have hinv : InvOk addr A (newConnArray dial closeRes 10 addr).dials n s := by
      induction hreach with
      | refl => exact invOk_init addr A _ n
      | tail hsteps hstep ih => exact invOk_step dial closeRes addr A n hA _ _ hstep ih
    obtain ⟨hclosed, hlen, hcase⟩ := hinv
    refine ⟨?_, ?_, ?_⟩
    · rcases hcase with ⟨_, h, _⟩ | ⟨_, h, _⟩
      · exact Or.inl h
      · exact Or.inr h
    · intro r hmem
      rcases hcase with ⟨_, _, hnod⟩ | ⟨_, _, hdone⟩
      · exact absurd hmem (hnod r)
      · exact hdone r hmem
    · intro halldone hn
      obtain ⟨st, hst⟩ := List.exists_mem_of_length_pos (by rw [hlen]; exact hn)
      obtain ⟨r0, hr0⟩ := halldone st hst
      rcases hcase with ⟨_, _, hnod⟩ | ⟨hconns, hdials, hdone⟩
      · exact absurd (hr0 ▸ hst) (hnod r0)
      · refine ⟨hdials, hconns, ?_⟩
        intro st' hst'
        obtain ⟨r', hr'⟩ := halldone st' hst'
        rw [hr', hdone r' (hr' ▸ hst')]
  · intro e he
    have hinv : InvErr e n s := by
      induction hreach with
      | refl => exact invErr_init e n
      | tail hsteps hstep ih => exact invErr_step dial closeRes addr e n he _ _ hstep ih
    exact ⟨hinv.2.2.1, hinv.2.2.2⟩

/-- The final state of a concrete two-caller interleaving for address `"a"`:
caller 0 runs its fast path (miss) and creates; caller 1 then finds the
registered set in its fast path. -/
def sysA : CSys :=
  ⟨{ isClosed := false, conns := [("a", arr10)] }, 10,
   [CallerState.done (Except.ok arr10), CallerState.done (Except.ok arr10)]⟩

theorem connpool_C1_witness :
    sysA.totalDials = (newConnArray dialSeq closeOk 10 "a").dials ∧
    sysA.client.conns = [("a", arr10)] ∧
    ∀ st ∈ sysA.callers, st = CallerState.done (Except.ok arr10) := by
  have hreach : Relation.ReflTransGen (CStep dialSeq closeOk "a") (initSys 2) sysA := by
    refine Relation.ReflTransGen.tail (Relation.ReflTransGen.tail
      (Relation.ReflTransGen.single (CStep.fastMiss (initSys 2) 0 rfl rfl))
      (CStep.create _ 0 rfl)) ?_
    exact CStep.fastDone _ 1 (Except.ok arr10) rfl rfl
  have h := (connpool_C1 dialSeq closeOk "a" 2 sysA hreach).1 arr10 (by decide)
  refine h.2.2 ?_ (by decide)
  intro st hst
  simp only [sysA, List.mem_cons, List.not_mem_nil, or_false] at hst
  rcases hst with h1 | h1 <;> exact ⟨Except.ok arr10, h1⟩
